import Mathlib

/-!
Shallow embedding of the `Stats` statistics engine of the `amifast`
micro-benchmarking library (`src/amifast/dtypes.py`, `src/amifast/utils.py`).

Python floats are modelled as exact rationals (`ℚ`): every arithmetic
operation appearing in the embedded code (addition, multiplication,
division, comparison) is then exact.  `statistics.stdev` returns the square
root of the sample variance; square roots are not rational-computable, so
the standard deviation is represented throughout by its square (`stdSqOf`),
together with exact rational encodings of the two comparisons against
`mean ± std` performed by `std_outliers`.  Squaring is injective on the
nonnegative values involved, so every equality statement about the
standard deviation is equivalent to the corresponding statement about its
square.

The memo cache installed by the `cached_property` decorator
(`src/amifast/utils.py`) is modelled explicitly as a partial map from the
fourteen cached statistic names to their stored values, and each `to_*`
unit conversion clears it exactly as `Stats._invalidate_cache` does.
-/

namespace Amifast

/-- Embedding of `TimeUnit` (dtypes.py lines 20-38): the seven supported
time units. -/
inductive TimeUnit
  | NS
  | US
  | MS
  | S
  | M
  | H
  | D
deriving DecidableEq, Repr

/-- Error taxonomy of the spec.  `invalidConfiguration` and
`invalidArgument` are both `ValueError` in the Python source
(construction guard and percentile guard respectively); `typeError` is
Python's `TypeError`, raised e.g. when a non-callable object is called. -/
inductive Err
  | invalidConfiguration
  | invalidArgument
  | typeError
deriving DecidableEq, Repr

/-- The names of the fourteen `cached_property` statistics that
`Stats._invalidate_cache` (dtypes.py lines 570-599) deletes. -/
inductive StatName
  | minimum
  | maximum
  | mean
  | std
  | median
  | std_outliers
  | repetitions
  | total
  | throughput
  | throughput_min
  | percentile_5th
  | percentile_25th
  | percentile_75th
  | percentile_95th
deriving DecidableEq, Repr

/-- A value stored in the memo cache: a rational (modelling a Python
float), a natural number (modelling a Python int, for `repetitions` and
`std_outliers`), or the float `nan` (returned by `throughput` and
`throughput_min` on zero denominators). -/
inductive StatVal
  | q (x : ℚ)
  | n (x : ℕ)
  | nan
deriving DecidableEq, Repr

/-- Embedding of the `Stats` object state (dtypes.py lines 41-141).
`raw_times` is `self._times`, `warmups` is `self._warmups` (the spec's
data model declares `0 ≤ warmup_count`, hence `ℕ`), `unit` is
`self._unit`, and `cache` models the per-instance `__dict__` entries
managed by `cached_property`.  The remaining fields are the metadata
attributes stored by `__init__`; per the spec (§9) the core never
introspects the function descriptor, it only stores what it is handed, so
the name/file/line triple is a constructor input here. -/
structure Stats where
  raw_times : List ℚ
  warmups : ℕ
  unit : TimeUnit
  cache : StatName → Option StatVal
  function : String
  function_name : Option String
  file : Option String
  line : Option ℕ
  timestamp : ℚ
  setup : String
  function_args : Option (List String)
  function_kwargs : Option (List (String × String))

/-- Embedding of the `Stats.times` property (dtypes.py lines 153-159):
`self.raw_times[self.warmups:]`, the effective times all statistics are
computed over. -/
def Stats.times (s : Stats) : List ℚ :=
  s.raw_times.drop s.warmups

/-- Embedding of `Stats.repetitions` (dtypes.py): `len(self.times)`. -/
def Stats.repetitions (s : Stats) : ℕ :=
  s.times.length

/-- Embedding of `Stats.__init__` (dtypes.py lines 106-143): fails when
`warmups >= len(times)`, otherwise stores the data with `unit = S` and an
empty memo cache. -/
def mkStats (times : List ℚ) (function : String) (warmups : ℕ)
    (function_name : Option String) (file : Option String) (line : Option ℕ)
    (setup : String) (timestamp : ℚ) (fn_args : Option (List String))
    (fn_kwargs : Option (List (String × String))) : Except Err Stats :=
  if times.length ≤ warmups then
    .error .invalidConfiguration
  else
    .ok { raw_times := times, warmups := warmups, unit := .S,
          cache := fun _ => none, function := function,
          function_name := function_name, file := file, line := line,
          timestamp := timestamp, setup := setup,
          function_args := fn_args, function_kwargs := fn_kwargs }

/-- Embedding of Python's `min` over a nonempty list of floats, used by
`Stats.minimum` (dtypes.py lines 230-233).  Python `min` folds the binary
minimum over the list; on the empty list it raises, which construction
makes unreachable, so the empty case is given the irrelevant default 0. -/
def pymin : List ℚ → ℚ
  | [] => 0
  | x :: xs => xs.foldl min x

/-- Embedding of Python's `max` over a nonempty list of floats, used by
`Stats.maximum` (dtypes.py lines 235-238). -/
def pymax : List ℚ → ℚ
  | [] => 0
  | x :: xs => xs.foldl max x

/-- Embedding of `statistics.mean`, used by `Stats.mean`: the sum divided
by the length (exact over `ℚ`; on the empty list Python raises, which
construction makes unreachable). -/
def statsMean (l : List ℚ) : ℚ :=
  l.sum / l.length

/-- Embedding of Python's `sorted` for lists of floats (ascending).  Over
a linear order the sorted permutation of a list is unique, so any correct
sort computes it; `List.insertionSort` is the executable sort used here. -/
def pySorted (l : List ℚ) : List ℚ :=
  l.insertionSort (· ≤ ·)

/-- Embedding of `statistics.median`, used by `Stats.median` (dtypes.py
lines 253-256): sort, then take the middle element (odd length) or the
mean of the two middle elements (even length). -/
def statsMedian (l : List ℚ) : ℚ :=
  let s := pySorted l
  let n := l.length
  if n % 2 = 1 then s.getD (n / 2) 0
  else (s.getD (n / 2 - 1) 0 + s.getD (n / 2) 0) / 2

/-- The square of `statistics.stdev`: the sample variance
`Σ (x - mean)² / (n - 1)` (dtypes.py lines 245-251 call
`statistics.stdev`, which is the square root of this quantity). -/
def sampleVariance (l : List ℚ) : ℚ :=
  (l.map (fun x => (x - statsMean l) ^ 2)).sum / ((l.length : ℚ) - 1)

/-- Embedding of `Stats.std` squared (dtypes.py lines 245-251): `0.0` when
fewer than two repetitions, else the sample variance (whose square root
`statistics.stdev` returns). -/
def stdSqOf (ts : List ℚ) : ℚ :=
  if ts.length < 2 then 0 else sampleVariance ts

/-- Embedding of `Stats.std_outliers` (dtypes.py lines 258-270): the count
of samples `t` with `t < mean - std` or `t > mean + std`.  With
`std = √v` for `v = stdSqOf ts ≥ 0`, the comparison `t < mean - √v` holds
iff `t < mean ∧ v < (mean - t)²`, and `t > mean + √v` holds iff
`mean < t ∧ v < (t - mean)²`; both encodings are exact over `ℚ`. -/
def stdOutliersOf (ts : List ℚ) : ℕ :=
  let v := stdSqOf ts
  let m := statsMean ts
  ts.countP (fun t =>
    decide ((t < m ∧ v < (m - t) ^ 2) ∨ (m < t ∧ v < (t - m) ^ 2)))

/-- Embedding of the body of `Stats._percentile` (dtypes.py lines 305-319)
after its argument guard: sort the effective times, compute the real rank
`k = (len - 1) * p`, bracket it by `f = floor(k)` and `c = ceil(k)`, and
either index directly (`f = c`; the source writes `times[int(k)]`, and
`int` truncates toward zero, which equals the floor since the guard makes
`k ≥ 0`) or interpolate.  Indexing is embedded with `List.getD`; under the
guard and a nonempty list all indices are in bounds, where `getD` agrees
with Python indexing. -/
def percentileBody (ts : List ℚ) (p : ℚ) : ℚ :=
  let sorted := pySorted ts
  let k : ℚ := ((ts.length - 1 : ℕ) : ℚ) * p
  let f : ℤ := ⌊k⌋
  let c : ℤ := ⌈k⌉
  if f ≠ c then
    sorted.getD f.toNat 0 * ((c : ℚ) - k) + sorted.getD c.toNat 0 * (k - (f : ℚ))
  else
    sorted.getD f.toNat 0

/-- Embedding of `Stats._percentile` (dtypes.py lines 305-319): the
argument guard `not (0.0 <= p <= 1.0)` raises `ValueError` (the spec's
`InvalidArgument`); in the typed embedding `p` is always a number, so the
`isinstance(p, float)` part of the guard holds. -/
def Stats.percentile (s : Stats) (p : ℚ) : Except Err ℚ :=
  if 0 ≤ p ∧ p ≤ 1 then .ok (percentileBody s.times p)
  else .error .invalidArgument

/-- Embedding of `Stats.minimum` (dtypes.py lines 230-233):
`min(self.times)`. -/
def Stats.minimum (s : Stats) : ℚ :=
  pymin s.times

/-- Embedding of `Stats.maximum` (dtypes.py lines 235-238):
`max(self.times)`. -/
def Stats.maximum (s : Stats) : ℚ :=
  pymax s.times

/-- Embedding of `Stats.mean` (dtypes.py lines 240-243). -/
def Stats.mean (s : Stats) : ℚ :=
  statsMean s.times

/-- Embedding of `Stats.median` (dtypes.py lines 253-256). -/
def Stats.median (s : Stats) : ℚ :=
  statsMedian s.times

/-- Embedding of `Stats.total` (dtypes.py): `sum(self.times)`. -/
def Stats.total (s : Stats) : ℚ :=
  s.times.sum

/-- Embedding of `Stats.std` squared (see `stdSqOf`). -/
def Stats.std_sq (s : Stats) : ℚ :=
  stdSqOf s.times

/-- The value of each of the fourteen cached statistics, computed freshly
from a list of effective times, exactly as the corresponding
`cached_property` bodies compute them (dtypes.py lines 230-354).
`std` is represented by its square (see `stdSqOf`). -/
def computeStat (ts : List ℚ) : StatName → StatVal
  | .minimum => .q (pymin ts)
  | .maximum => .q (pymax ts)
  | .mean => .q (statsMean ts)
  | .std => .q (stdSqOf ts)
  | .median => .q (statsMedian ts)
  | .std_outliers => .n (stdOutliersOf ts)
  | .repetitions => .n ts.length
  | .total => .q ts.sum
  | .throughput => if ts.sum = 0 then .nan else .q ((ts.length : ℚ) / ts.sum)
  | .throughput_min => if pymin ts = 0 then .nan else .q (1 / pymin ts)
  | .percentile_5th => .q (percentileBody ts (5 / 100))
  | .percentile_25th => .q (percentileBody ts (25 / 100))
  | .percentile_75th => .q (percentileBody ts (75 / 100))
  | .percentile_95th => .q (percentileBody ts (95 / 100))

/-- Embedding of one access through `cached_property.__get__`
(utils.py lines 20-28): return the cached entry if present, otherwise
compute the value, store it under the property's name, and return it. -/
def read1 (s : Stats) (k : StatName) : StatVal × Stats :=
  match s.cache k with
  | some v => (v, s)
  | none =>
      (computeStat s.times k,
       { s with cache := fun j => if j = k then some (computeStat s.times k) else s.cache j })

/-- The other cached properties a `cached_property` body reads (and hence
populates as a side effect), in access order: `std` reads `repetitions`;
`std_outliers` reads `std` (which reads `repetitions`) and `mean`;
`throughput` reads `total` and `repetitions`; `throughput_min` reads
`minimum`.  All other bodies read only `self.times`. -/
def statDeps : StatName → List StatName
  | .std => [.repetitions]
  | .std_outliers => [.repetitions, .std, .mean]
  | .throughput => [.total, .repetitions]
  | .throughput_min => [.minimum]
  | _ => []

/-- A read of one derived statistic: touch the dependent cached properties
in access order, then read the statistic itself, returning its value and
the updated state. -/
def Stats.readStat (s : Stats) (k : StatName) : StatVal × Stats :=
  read1 ((statDeps k).foldl (fun t j => (read1 t j).2) s) k

/-- A sequence of reads of derived statistics, threading the memo cache. -/
def Stats.runReads (s : Stats) (ks : List StatName) : Stats :=
  ks.foldl (fun t k => (t.readStat k).2) s

/-- The memo cache is coherent: every entry present in it equals the value
freshly computed from the current effective times.  Construction starts
with an empty (vacuously coherent) cache; reads and conversions preserve
coherence. -/
def Coherent (s : Stats) : Prop :=
  ∀ k v, s.cache k = some v → v = computeStat s.times k

/-- Embedding of `Stats._conversion_fn` (dtypes.py lines 465-568): the
pairwise table of conversion functions between units.  When
`unit = target` no branch of the source's inner `if`/`elif` chain matches
and the Python function implicitly returns `None`, embedded as `none`
(the seven `to_*` methods guard against this case before calling). -/
def conversionFn (unit target : TimeUnit) : Option (ℚ → ℚ) :=
  match unit, target with
  | .NS, .US => some (fun x => x / 1000)
  | .NS, .MS => some (fun x => x / 1000000)
  | .NS, .S => some (fun x => x / 1000000000)
  | .NS, .M => some (fun x => x / (60 * 1000000000))
  | .NS, .H => some (fun x => x / (60 * 60 * 1000000000))
  | .NS, .D => some (fun x => x / (24 * 60 * 60 * 1000000000))
  | .US, .NS => some (fun x => x * 1000)
  | .US, .MS => some (fun x => x / 1000)
  | .US, .S => some (fun x => x / 1000000)
  | .US, .M => some (fun x => x / (60 * 1000000))
  | .US, .H => some (fun x => x / (60 * 60 * 1000000))
  | .US, .D => some (fun x => x / (24 * 60 * 60 * 1000000))
  | .MS, .NS => some (fun x => x * 1000000)
  | .MS, .US => some (fun x => x * 1000)
  | .MS, .S => some (fun x => x / 1000)
  | .MS, .M => some (fun x => x / (60 * 1000))
  | .MS, .H => some (fun x => x / (60 * 60 * 1000))
  | .MS, .D => some (fun x => x / (24 * 60 * 60 * 1000))
  | .S, .NS => some (fun x => x * 1000000000)
  | .S, .US => some (fun x => x * 1000000)
  | .S, .MS => some (fun x => x * 1000)
  | .S, .M => some (fun x => x / 60)
  | .S, .H => some (fun x => x / (60 * 60))
  | .S, .D => some (fun x => x / (24 * 60 * 60))
  | .M, .NS => some (fun x => x * 60 * 1000000000)
  | .M, .US => some (fun x => x * 60 * 1000000)
  | .M, .MS => some (fun x => x * 60 * 1000)
  | .M, .S => some (fun x => x * 60)
  | .M, .H => some (fun x => x / 60)
  | .M, .D => some (fun x => x / (24 * 60))
  | .H, .NS => some (fun x => x * 60 * 60 * 1000000000)
  | .H, .US => some (fun x => x * 60 * 60 * 1000000)
  | .H, .MS => some (fun x => x * 60 * 60 * 1000)
  | .H, .S => some (fun x => x * 60 * 60)
  | .H, .M => some (fun x => x * 60)
  | .H, .D => some (fun x => x / 24)
  | .D, .NS => some (fun x => x * 24 * 60 * 60 * 1000000000)
  | .D, .US => some (fun x => x * 24 * 60 * 60 * 1000000)
  | .D, .MS => some (fun x => x * 24 * 60 * 60 * 1000)
  | .D, .S => some (fun x => x * 24 * 60 * 60)
  | .D, .M => some (fun x => x * 24 * 60)
  | .D, .H => some (fun x => x * 24)
  | _, _ => none

/-- Embedding of the common body of the seven `to_*` conversion methods
(dtypes.py lines 395-463): if not already in the target unit, invalidate
the memo cache (`Stats._invalidate_cache` deletes exactly the fourteen
`StatName` entries), convert every stored raw time, and update the unit.
The inner `none` branch is unreachable because `conversionFn` only returns
`none` when `unit = target`. -/
def Stats.toUnit (s : Stats) (t : TimeUnit) : Stats :=
  if s.unit ≠ t then
    match conversionFn s.unit t with
    | some f =>
        { s with cache := fun _ => none, raw_times := s.raw_times.map f, unit := t }
    | none => s
  else s

/-- Embedding of `Stats.to_nanoseconds` (dtypes.py lines 395-403). -/
def Stats.to_nanoseconds (s : Stats) : Stats := s.toUnit .NS

/-- Embedding of `Stats.to_microseconds` (dtypes.py lines 405-413). -/
def Stats.to_microseconds (s : Stats) : Stats := s.toUnit .US

/-- Embedding of `Stats.to_milliseconds` (dtypes.py lines 415-423). -/
def Stats.to_milliseconds (s : Stats) : Stats := s.toUnit .MS

/-- Embedding of `Stats.to_seconds` (dtypes.py lines 425-433). -/
def Stats.to_seconds (s : Stats) : Stats := s.toUnit .S

/-- Embedding of `Stats.to_minutes` (dtypes.py lines 435-443). -/
def Stats.to_minutes (s : Stats) : Stats := s.toUnit .M

/-- Embedding of `Stats.to_hours` (dtypes.py lines 445-453). -/
def Stats.to_hours (s : Stats) : Stats := s.toUnit .H

/-- Embedding of `Stats.to_days` (dtypes.py lines 455-463). -/
def Stats.to_days (s : Stats) : Stats := s.toUnit .D

/-- Embedding of `Stats.validate` (dtypes.py lines 356-393).  The method
begins `std = self.std()` when `len(self.times) >= 2`; but `std` is a
`cached_property`, so `self.std` evaluates to a float and calling it
raises `TypeError` before any warning can be produced.  When
`len(self.times) < 2` the method instead reaches
`self._conversion_fn(TimeUnit.MS)(self.minimum())`, where `self.minimum`
is likewise a float being called, again raising `TypeError`.  Either way
the call never returns a warning list. -/
def Stats.validate (s : Stats) : Except Err (List String) :=
  if 2 ≤ s.times.length then
    .error .typeError
  else
    .error .typeError

/-- The percentile rule exactly as the spec's claim words it (spec §4.3):
sort ascending, `k = (n - 1) * p`, `floor_idx = floor k`,
`ceil_idx = ceil k`; if the two indices agree return
`sorted_times[floor_idx]`, otherwise return
`sorted_times[floor_idx] * (ceil_idx - k) + sorted_times[ceil_idx] * (k - floor_idx)`. -/
def percentileSpecRule (ts : List ℚ) (p : ℚ) : ℚ :=
  let sorted_times := pySorted ts
  let k : ℚ := ((ts.length - 1 : ℕ) : ℚ) * p
  let floor_idx : ℤ := ⌊k⌋
  let ceil_idx : ℤ := ⌈k⌉
  if floor_idx = ceil_idx then
    sorted_times.getD floor_idx.toNat 0
  else
    sorted_times.getD floor_idx.toNat 0 * ((ceil_idx : ℚ) - k) +
      sorted_times.getD ceil_idx.toNat 0 * (k - (floor_idx : ℚ))

/-- A concrete `Stats` value used to instantiate universally quantified
theorems: effective times `[1/10, 2/10, 3/10]`, no warmups, seconds. -/
def demoStats : Stats :=
  { raw_times := [1/10, 2/10, 3/10], warmups := 0, unit := .S,
    cache := fun _ => none, function := "f", function_name := some "f",
    file := none, line := none, timestamp := 0, setup := "pass",
    function_args := none, function_kwargs := none }

/-- A concrete `Stats` value with a single effective time (one
repetition). -/
def demoStats1 : Stats :=
  { raw_times := [5], warmups := 0, unit := .S,
    cache := fun _ => none, function := "g", function_name := some "g",
    file := none, line := none, timestamp := 0, setup := "pass",
    function_args := none, function_kwargs := none }

/-- A concrete `Stats` value with four (unsorted) effective times, to
exercise the even-count median case. -/
def demoStats4 : Stats :=
  { raw_times := [4/10, 2/10, 3/10, 1/10], warmups := 0, unit := .S,
    cache := fun _ => none, function := "h", function_name := some "h",
    file := none, line := none, timestamp := 0, setup := "pass",
    function_args := none, function_kwargs := none }

/-- The concrete `Stats` value produced by
`mkStats [1/10, 2/10] "f" 1 none none none "pass" 0 none none`. -/
def demoStats2 : Stats :=
  { raw_times := [1/10, 2/10], warmups := 1, unit := .S,
    cache := fun _ => none, function := "f", function_name := none,
    file := none, line := none, timestamp := 0, setup := "pass",
    function_args := none, function_kwargs := none }

theorem map_map_of_inverse {f g : ℚ → ℚ} (h : ∀ x, g (f x) = x) :
    ∀ l : List ℚ, (l.map f).map g = l := by
  intro l
  induction l with
  | nil => rfl
  | cons a t ih => simp [h, ih]

theorem toUnit_of_ne (s : Stats) (t : TimeUnit) (h : s.unit ≠ t) (f : ℚ → ℚ)
    (hc : conversionFn s.unit t = some f) :
    s.toUnit t =
      { s with cache := fun _ => none, raw_times := s.raw_times.map f, unit := t } := by
  unfold Stats.toUnit
  rw [if_pos h, hc]

theorem toUnit_of_eq (s : Stats) (t : TimeUnit) (h : s.unit = t) : s.toUnit t = s := by
  unfold Stats.toUnit
  rw [if_neg]
  simp [h]

/-- C3: `Stats` construction fails with `InvalidConfiguration` exactly when
`warmups >= len(times)`, and succeeds (produces a `Stats`) exactly when
`0 <= warmups < len(times)`. -/
theorem construction_fails_iff_warmups_ge_len (times : List ℚ) (function : String)
    (warmups : ℕ) (fn : Option String) (file : Option String) (line : Option ℕ)
    (setup : String) (timestamp : ℚ) (a : Option (List String))
    (kw : Option (List (String × String))) :
    ((∃ e, mkStats times function warmups fn file line setup timestamp a kw = .error e)
        ↔ times.length ≤ warmups) ∧
      ((∃ s, mkStats times function warmups fn file line setup timestamp a kw = .ok s)
        ↔ warmups < times.length) := by
  unfold mkStats
  by_cases h : times.length ≤ warmups <;> simp [h] <;> omega

/-- C4: `percentile p` on a `Stats` instance (whose effective times are
nonempty by construction) fails with `InvalidArgument` exactly when `p` is
outside `[0, 1]`, and returns a value exactly when `0 ≤ p ≤ 1`. -/
theorem percentile_fails_iff_out_of_range (s : Stats) (p : ℚ) (hne : s.times ≠ []) :
    (s.percentile p = .error .invalidArgument ↔ ¬(0 ≤ p ∧ p ≤ 1)) ∧
      ((∃ v, s.percentile p = .ok v) ↔ (0 ≤ p ∧ p ≤ 1)) := by
  unfold Stats.percentile
  by_cases hp : 0 ≤ p ∧ p ≤ 1 <;> simp [hp]

theorem percentile_fails_iff_out_of_range_witness :
    demoStats.times ≠ [] ∧
      (demoStats.percentile (3/2) = .error .invalidArgument ∧
        (∃ v, demoStats.percentile (1/2) = .ok v)) :=
  ⟨by decide,
    (percentile_fails_iff_out_of_range demoStats (3/2) (by decide)).1.mpr (by norm_num),
    (percentile_fails_iff_out_of_range demoStats (1/2) (by decide)).2.mpr (by norm_num)⟩

/-- C5: `std` (represented by its square `std_sq`, since the standard
deviation is the square root of the sample variance) is exactly `0` when
`repetitions < 2`, and is the sample standard deviation of the effective
times — its square is `Σ (x - mean)² / (n - 1)` — when `repetitions ≥ 2`. -/
theorem std_zero_below_two_reps_else_sample_sd (s : Stats) :
    (s.repetitions < 2 → s.std_sq = 0) ∧
      (2 ≤ s.repetitions →
        s.std_sq =
          ((s.times.map (fun x => (x - s.times.sum / s.times.length) ^ 2)).sum) /
            ((s.times.length : ℚ) - 1)) := by
  constructor
  · intro h
    simp only [Stats.std_sq, stdSqOf]
    rw [if_pos]
    exact h
  · intro h
    simp only [Stats.std_sq, stdSqOf, sampleVariance, statsMean]
    rw [if_neg]
    exact Nat.not_lt.mpr h

theorem std_zero_below_two_reps_else_sample_sd_witness :
    demoStats1.std_sq = 0 ∧
      demoStats.std_sq =
        ((demoStats.times.map
            (fun x => (x - demoStats.times.sum / demoStats.times.length) ^ 2)).sum) /
          ((demoStats.times.length : ℚ) - 1) :=
  ⟨(std_zero_below_two_reps_else_sample_sd demoStats1).1 (by decide),
    (std_zero_below_two_reps_else_sample_sd demoStats).2 (by decide)⟩

/-- C6 (counter-evidence): `validate` never returns a warning list.  Its
body calls `self.std()`, `self.mean()` and `self.minimum()`, but those are
`cached_property` attributes whose values are floats, so every call path
raises `TypeError` — here evaluated at the concrete instance `demoStats`
(times `[0.1, 0.2, 0.3]`, no warmups), and proved for every instance. -/
theorem validate_always_raises_type_error :
    demoStats.validate = .error .typeError ∧
      ∀ s : Stats, s.validate = .error .typeError := by
  constructor
  · rfl
  · intro s
    unfold Stats.validate
    by_cases h : 2 ≤ s.times.length <;> simp [h]

/-- C9: every `to_*` unit conversion — whether or not it changes the
unit — leaves all metadata fields unchanged: `warmups`, `function`,
`function_name`, `file`, `line`, `timestamp`, `setup`, `function_args`
and `function_kwargs` are identical before and after. -/
theorem conversion_preserves_metadata (s : Stats) (t : TimeUnit) :
    (s.toUnit t).warmups = s.warmups ∧ (s.toUnit t).function = s.function ∧
      (s.toUnit t).function_name = s.function_name ∧ (s.toUnit t).file = s.file ∧
      (s.toUnit t).line = s.line ∧ (s.toUnit t).timestamp = s.timestamp ∧
      (s.toUnit t).setup = s.setup ∧ (s.toUnit t).function_args = s.function_args ∧
      (s.toUnit t).function_kwargs = s.function_kwargs := by
  unfold Stats.toUnit
  by_cases h : s.unit ≠ t
  · cases hc : conversionFn s.unit t <;> simp [h, hc]
  · simp [h]

theorem roundtrip_core (s : Stats) (h : s.unit = .S) (t : TimeUnit) (hne : t ≠ .S)
    (f g : ℚ → ℚ) (hf : conversionFn .S t = some f) (hg : conversionFn t .S = some g)
    (hinv : ∀ x, g (f x) = x) :
    ((s.toUnit t).to_seconds).raw_times = s.raw_times ∧
      ((s.toUnit t).to_seconds).warmups = s.warmups := by
  have h1 : s.toUnit t =
      { s with cache := fun _ => none, raw_times := s.raw_times.map f, unit := t } :=
    toUnit_of_ne s t (by rw [h]; exact fun e => hne e.symm) f (by rw [h]; exact hf)
  have h2 : (s.toUnit t).to_seconds =
      { s with cache := fun _ => none, raw_times := (s.raw_times.map f).map g, unit := .S } := by
    unfold Stats.to_seconds
    rw [h1]
    exact toUnit_of_ne _ .S hne g hg
  rw [h2, map_map_of_inverse hinv]
  exact ⟨rfl, rfl⟩

/-- C7: starting from a seconds-denominated `Stats`, converting to any of
the seven units and then back to seconds reproduces every stored time
(both `raw_times` and the effective `times`) exactly. -/
theorem to_unit_then_seconds_roundtrip (s : Stats) (h : s.unit = .S) (t : TimeUnit) :
    ((s.toUnit t).to_seconds).raw_times = s.raw_times ∧
      ((s.toUnit t).to_seconds).times = s.times := by
  have key : ((s.toUnit t).to_seconds).raw_times = s.raw_times ∧
      ((s.toUnit t).to_seconds).warmups = s.warmups := by
    cases t
    case S =>
      unfold Stats.to_seconds
      rw [toUnit_of_eq s .S h, toUnit_of_eq s .S h]
      exact ⟨rfl, rfl⟩
    case NS =>
      exact roundtrip_core s h .NS (by decide) _ _ rfl rfl
        (fun x => by show x * 1000000000 / 1000000000 = x; field_simp)
    case US =>
      exact roundtrip_core s h .US (by decide) _ _ rfl rfl
        (fun x => by show x * 1000000 / 1000000 = x; field_simp)
    case MS =>
      exact roundtrip_core s h .MS (by decide) _ _ rfl rfl
        (fun x => by show x * 1000 / 1000 = x; field_simp)
    case M =>
      exact roundtrip_core s h .M (by decide) _ _ rfl rfl
        (fun x => by show x / 60 * 60 = x; field_simp)
    case H =>
      exact roundtrip_core s h .H (by decide) _ _ rfl rfl
        (fun x => by show x / (60 * 60) * 60 * 60 = x; field_simp; ring)
    case D =>
      exact roundtrip_core s h .D (by decide) _ _ rfl rfl
        (fun x => by show x / (24 * 60 * 60) * 24 * 60 * 60 = x; field_simp; ring)
  refine ⟨key.1, ?_⟩
  unfold Stats.times
  rw [key.1, key.2]

theorem to_unit_then_seconds_roundtrip_witness :
    demoStats.unit = .S ∧
      ((demoStats.toUnit .NS).to_seconds).raw_times = demoStats.raw_times ∧
      ((demoStats.toUnit .NS).to_seconds).times = demoStats.times :=
  ⟨rfl, to_unit_then_seconds_roundtrip demoStats rfl .NS⟩

theorem percentileBody_eq_specRule (ts : List ℚ) (p : ℚ) :
    percentileBody ts p = percentileSpecRule ts p := by
  unfold percentileBody percentileSpecRule
  by_cases hfc :
      (⌊((ts.length - 1 : ℕ) : ℚ) * p⌋ : ℤ) = ⌈((ts.length - 1 : ℕ) : ℚ) * p⌉ <;>
    simp [hfc]

/-- C1: for a `Stats` instance with nonempty effective times and
`0 ≤ p ≤ 1`, `percentile p` returns exactly the spec's
linear-interpolation rule: with the effective times sorted ascending and
`k = (n - 1) * p`, the result is `sorted_times[floor k]` when
`floor k = ceil k`, and
`sorted_times[floor k] * (ceil k - k) + sorted_times[ceil k] * (k - floor k)`
otherwise. -/
theorem percentile_eq_linear_interpolation (s : Stats) (p : ℚ) (hne : s.times ≠ [])
    (h0 : 0 ≤ p) (h1 : p ≤ 1) :
    s.percentile p = .ok (percentileSpecRule s.times p) := by
  unfold Stats.percentile
  rw [if_pos ⟨h0, h1⟩, percentileBody_eq_specRule]

theorem percentile_eq_linear_interpolation_witness :
    demoStats.times ≠ [] ∧ (0 : ℚ) ≤ 1/4 ∧ (1/4 : ℚ) ≤ 1 ∧
      demoStats.percentile (1/4) = .ok (percentileSpecRule demoStats.times (1/4)) :=
  ⟨by decide, by norm_num, by norm_num,
    percentile_eq_linear_interpolation demoStats (1/4) (by decide) (by norm_num)
      (by norm_num)⟩

theorem read1_snd_fields (s : Stats) (k : StatName) :
    ((read1 s k).2).raw_times = s.raw_times ∧ ((read1 s k).2).warmups = s.warmups ∧
      ((read1 s k).2).unit = s.unit := by
  unfold read1
  cases h : s.cache k <;> simp [h]

theorem read1_times (s : Stats) (k : StatName) : ((read1 s k).2).times = s.times := by
  unfold Stats.times
  rw [(read1_snd_fields s k).1, (read1_snd_fields s k).2.1]

theorem coherent_read1 (s : Stats) (k : StatName) (h : Coherent s) :
    Coherent ((read1 s k).2) := by
  intro k' v hv
  rw [read1_times]
  unfold read1 at hv
  cases hc : s.cache k with
  | some w =>
      rw [hc] at hv
      exact h k' v hv
  | none =>
      rw [hc] at hv
      have hv' : (if k' = k then some (computeStat s.times k) else s.cache k') = some v := hv
      by_cases hk : k' = k
      · subst hk
        rw [if_pos rfl] at hv'
        exact (Option.some.inj hv').symm
      · rw [if_neg hk] at hv'
        exact h k' v hv'

theorem foldl_read1_fields (ks : List StatName) (s : Stats) :
    (ks.foldl (fun t j => (read1 t j).2) s).raw_times = s.raw_times ∧
      (ks.foldl (fun t j => (read1 t j).2) s).warmups = s.warmups ∧
      (ks.foldl (fun t j => (read1 t j).2) s).unit = s.unit := by
  induction ks generalizing s with
  | nil => exact ⟨rfl, rfl, rfl⟩
  | cons k ks ih =>
      simp only [List.foldl_cons]
      obtain ⟨a, b, c⟩ := ih ((read1 s k).2)
      obtain ⟨a', b', c'⟩ := read1_snd_fields s k
      exact ⟨a.trans a', b.trans b', c.trans c'⟩

theorem foldl_read1_coherent (ks : List StatName) (s : Stats) (h : Coherent s) :
    Coherent (ks.foldl (fun t j => (read1 t j).2) s) := by
  induction ks generalizing s with
  | nil => exact h
  | cons k ks ih =>
      simp only [List.foldl_cons]
      exact ih _ (coherent_read1 s k h)

theorem foldl_read1_times (ks : List StatName) (s : Stats) :
    (ks.foldl (fun t j => (read1 t j).2) s).times = s.times := by
  unfold Stats.times
  rw [(foldl_read1_fields ks s).1, (foldl_read1_fields ks s).2.1]

theorem read1_fst (s : Stats) (k : StatName) (h : Coherent s) :
    (read1 s k).1 = computeStat s.times k := by
  unfold read1
  cases hc : s.cache k with
  | some v => exact h k v hc
  | none => rfl

theorem readStat_fst_of_coherent (s : Stats) (k : StatName) (h : Coherent s) :
    (s.readStat k).1 = computeStat s.times k := by
  unfold Stats.readStat
  rw [read1_fst _ _ (foldl_read1_coherent (statDeps k) s h),
    foldl_read1_times (statDeps k) s]

theorem readStat_snd_fields (s : Stats) (k : StatName) :
    ((s.readStat k).2).raw_times = s.raw_times ∧ ((s.readStat k).2).warmups = s.warmups ∧
      ((s.readStat k).2).unit = s.unit := by
  unfold Stats.readStat
  obtain ⟨a, b, c⟩ := foldl_read1_fields (statDeps k) s
  obtain ⟨a', b', c'⟩ := read1_snd_fields ((statDeps k).foldl (fun t j => (read1 t j).2) s) k
  exact ⟨a'.trans a, b'.trans b, c'.trans c⟩

theorem runReads_fields (s : Stats) (ks : List StatName) :
    (s.runReads ks).raw_times = s.raw_times ∧ (s.runReads ks).warmups = s.warmups ∧
      (s.runReads ks).unit = s.unit := by
  unfold Stats.runReads
  induction ks generalizing s with
  | nil => exact ⟨rfl, rfl, rfl⟩
  | cons k ks ih =>
      simp only [List.foldl_cons]
      obtain ⟨a, b, c⟩ := ih ((s.readStat k).2)
      obtain ⟨a', b', c'⟩ := readStat_snd_fields s k
      exact ⟨a.trans a', b.trans b', c.trans c'⟩

theorem conversionFn_ne_none (u t : TimeUnit) (h : u ≠ t) : conversionFn u t ≠ none := by
  cases u <;> cases t <;> simp_all [conversionFn]

theorem toUnit_cache_of_ne (s : Stats) (t : TimeUnit) (h : s.unit ≠ t) :
    (s.toUnit t).cache = fun _ => none := by
  unfold Stats.toUnit
  rw [if_pos h]
  cases hc : conversionFn s.unit t with
  | none => exact absurd hc (conversionFn_ne_none _ _ h)
  | some f => rfl

/-- C2: after any sequence of reads of derived statistics (each possibly
populating the memo cache) followed by a unit conversion to a different
unit, the next read of every one of the fourteen derived statistics
returns exactly the value freshly computed from the converted effective
times — no stale pre-conversion cached value is ever returned. -/
theorem read_after_conversion_is_fresh (s : Stats) (ks : List StatName) (t : TimeUnit)
    (h : t ≠ s.unit) (k : StatName) :
    (((s.runReads ks).toUnit t).readStat k).1 =
      computeStat (((s.runReads ks).toUnit t).times) k := by
  apply readStat_fst_of_coherent
  intro k' v hv
  have hu : (s.runReads ks).unit = s.unit := (runReads_fields s ks).2.2
  have hreset : ((s.runReads ks).toUnit t).cache = fun _ => none :=
    toUnit_cache_of_ne _ t (by rw [hu]; exact fun e => h e.symm)
  rw [hreset] at hv
  exact absurd hv (by simp)

theorem read_after_conversion_is_fresh_witness :
    TimeUnit.MS ≠ demoStats.unit ∧
      (((demoStats.runReads [.mean]).toUnit .MS).readStat .mean).1 =
        computeStat (((demoStats.runReads [.mean]).toUnit .MS).times) .mean :=
  ⟨by decide, read_after_conversion_is_fresh demoStats [.mean] .MS (by decide) .mean⟩

theorem foldl_toUnit_fields (units : List TimeUnit) (s : Stats) :
    (units.foldl Stats.toUnit s).raw_times.length = s.raw_times.length ∧
      (units.foldl Stats.toUnit s).warmups = s.warmups := by
  induction units generalizing s with
  | nil => exact ⟨rfl, rfl⟩
  | cons t ts ih =>
      simp only [List.foldl_cons]
      obtain ⟨a, b⟩ := ih (s.toUnit t)
      have step : (s.toUnit t).raw_times.length = s.raw_times.length ∧
          (s.toUnit t).warmups = s.warmups := by
        unfold Stats.toUnit
        by_cases h : s.unit ≠ t
        · cases hc : conversionFn s.unit t <;> simp [h, hc]
        · simp [h]
      exact ⟨a.trans step.1, b.trans step.2⟩

/-- C10: operations reachable from a successful construction preserve the
construction-time invariant: after any sequence of unit conversions, the
raw-times length and `warmups` are unchanged, `warmups` is still strictly
below the raw-times length, the effective times are nonempty, and
`repetitions` equals `len(raw_times) - warmups`. -/
theorem conversions_preserve_invariant (times : List ℚ) (function : String)
    (warmups : ℕ) (fn : Option String) (file : Option String) (line : Option ℕ)
    (setup : String) (timestamp : ℚ) (a : Option (List String))
    (kw : Option (List (String × String))) (s₀ : Stats)
    (hmk : mkStats times function warmups fn file line setup timestamp a kw = .ok s₀)
    (units : List TimeUnit) :
    (units.foldl Stats.toUnit s₀).raw_times.length = times.length ∧
      (units.foldl Stats.toUnit s₀).warmups = warmups ∧
      (units.foldl Stats.toUnit s₀).warmups <
        (units.foldl Stats.toUnit s₀).raw_times.length ∧
      (units.foldl Stats.toUnit s₀).times ≠ [] ∧
      (units.foldl Stats.toUnit s₀).repetitions =
        (units.foldl Stats.toUnit s₀).raw_times.length -
          (units.foldl Stats.toUnit s₀).warmups := by
  unfold mkStats at hmk
  by_cases hw : times.length ≤ warmups
  · rw [if_pos hw] at hmk
    exact absurd hmk (by simp)
  · rw [if_neg hw] at hmk
    have hs₀ := Except.ok.inj hmk
    have hraw : s₀.raw_times = times := by rw [← hs₀]
    have hwarm : s₀.warmups = warmups := by rw [← hs₀]
    obtain ⟨a1, a2⟩ := foldl_toUnit_fields units s₀
    rw [hraw] at a1
    rw [hwarm] at a2
    have hlt : (units.foldl Stats.toUnit s₀).warmups <
        (units.foldl Stats.toUnit s₀).raw_times.length := by
      rw [a1, a2]; omega
    refine ⟨a1, a2, hlt, ?_, ?_⟩
    · have hlen : (units.foldl Stats.toUnit s₀).times.length =
          (units.foldl Stats.toUnit s₀).raw_times.length -
            (units.foldl Stats.toUnit s₀).warmups := by
        unfold Stats.times
        exact List.length_drop _ _
      intro hnil
      rw [hnil] at hlen
      simp at hlen
      omega
    · unfold Stats.repetitions Stats.times
      exact List.length_drop _ _

theorem conversions_preserve_invariant_witness :
    (mkStats [1/10, 2/10] "f" 1 none none none "pass" 0 none none = .ok demoStats2) ∧
      ([TimeUnit.NS, TimeUnit.H].foldl Stats.toUnit demoStats2).times ≠ [] :=
  ⟨rfl,
    (conversions_preserve_invariant [1/10, 2/10] "f" 1 none none none "pass" 0 none none
        demoStats2 rfl [TimeUnit.NS, TimeUnit.H]).2.2.2.1⟩

theorem foldl_min_le (xs : List ℚ) (a : ℚ) :
    xs.foldl min a ≤ a ∧ ∀ x ∈ xs, xs.foldl min a ≤ x := by
  induction xs generalizing a with
  | nil => exact ⟨le_refl a, by intro x hx; cases hx⟩
  | cons b xs ih =>
      simp only [List.foldl_cons]
      obtain ⟨h1, h2⟩ := ih (min a b)
      refine ⟨h1.trans (min_le_left a b), ?_⟩
      intro x hx
      rcases List.mem_cons.mp hx with hx | hx
      · subst hx
        exact h1.trans (min_le_right a x)
      · exact h2 x hx

theorem foldl_min_mem (xs : List ℚ) (a : ℚ) :
    xs.foldl min a = a ∨ xs.foldl min a ∈ xs := by
  induction xs generalizing a with
  | nil => exact Or.inl rfl
  | cons b xs ih =>
      simp only [List.foldl_cons]
      rcases ih (min a b) with h | h
      · rw [h]
        rcases min_choice a b with h' | h'
        · exact Or.inl h'
        · rw [h']
          exact Or.inr (List.mem_cons_self b xs)
      · exact Or.inr (List.mem_cons_of_mem b h)

theorem pymin_le (l : List ℚ) (x : ℚ) (hx : x ∈ l) : pymin l ≤ x := by
  cases l with
  | nil => cases hx
  | cons a t =>
      unfold pymin
      rcases List.mem_cons.mp hx with h | h
      · subst h
        exact (foldl_min_le t x).1
      · exact (foldl_min_le t a).2 x h

theorem pymin_mem (l : List ℚ) (h : l ≠ []) : pymin l ∈ l := by
  cases l with
  | nil => exact absurd rfl h
  | cons a t =>
      simp only [pymin]
      rcases foldl_min_mem t a with h' | h'
      · rw [h']
        exact List.mem_cons_self a t
      · exact List.mem_cons_of_mem a h'

theorem le_foldl_max (xs : List ℚ) (a : ℚ) :
    a ≤ xs.foldl max a ∧ ∀ x ∈ xs, x ≤ xs.foldl max a := by
  induction xs generalizing a with
  | nil => exact ⟨le_refl a, by intro x hx; cases hx⟩
  | cons b xs ih =>
      simp only [List.foldl_cons]
      obtain ⟨h1, h2⟩ := ih (max a b)
      refine ⟨(le_max_left a b).trans h1, ?_⟩
      intro x hx
      rcases List.mem_cons.mp hx with hx | hx
      · subst hx
        exact (le_max_right a x).trans h1
      · exact h2 x hx

theorem foldl_max_mem (xs : List ℚ) (a : ℚ) :
    xs.foldl max a = a ∨ xs.foldl max a ∈ xs := by
  induction xs generalizing a with
  | nil => exact Or.inl rfl
  | cons b xs ih =>
      simp only [List.foldl_cons]
      rcases ih (max a b) with h | h
      · rw [h]
        rcases max_choice a b with h' | h'
        · exact Or.inl h'
        · rw [h']
          exact Or.inr (List.mem_cons_self b xs)
      · exact Or.inr (List.mem_cons_of_mem b h)

theorem le_pymax (l : List ℚ) (x : ℚ) (hx : x ∈ l) : x ≤ pymax l := by
  cases l with
  | nil => cases hx
  | cons a t =>
      unfold pymax
      rcases List.mem_cons.mp hx with h | h
      · subst h
        exact (le_foldl_max t x).1
      · exact (le_foldl_max t a).2 x h

theorem pymax_mem (l : List ℚ) (h : l ≠ []) : pymax l ∈ l := by
  cases l with
  | nil => exact absurd rfl h
  | cons a t =>
      simp only [pymax]
      rcases foldl_max_mem t a with h' | h'
      · rw [h']
        exact List.mem_cons_self a t
      · exact List.mem_cons_of_mem a h'

theorem pySorted_perm (l : List ℚ) : (pySorted l).Perm l :=
  List.perm_insertionSort _ l

theorem pySorted_sorted (l : List ℚ) : (pySorted l).Sorted (· ≤ ·) :=
  List.sorted_insertionSort _ l

theorem pySorted_length (l : List ℚ) : (pySorted l).length = l.length :=
  (pySorted_perm l).length_eq

theorem pySorted_getD_zero (l : List ℚ) (h : l ≠ []) : (pySorted l).getD 0 0 = pymin l := by
  have hlen := pySorted_length l
  have hpos : 0 < (pySorted l).length := by
    rw [hlen]
    exact List.length_pos.mpr h
  rw [List.getD_eq_getElem _ _ hpos]
  apply le_antisymm
  · have hm : pymin l ∈ pySorted l := (pySorted_perm l).mem_iff.mpr (pymin_mem l h)
    obtain ⟨i, hi⟩ := List.mem_iff_get.mp hm
    rw [← hi, ← List.get_eq_getElem (pySorted l) ⟨0, hpos⟩]
    exact (pySorted_sorted l).rel_get_of_le (Nat.zero_le i.1)
  · exact pymin_le l _ ((pySorted_perm l).mem_iff.mp (List.getElem_mem hpos))

theorem pySorted_getD_last (l : List ℚ) (h : l ≠ []) :
    (pySorted l).getD (l.length - 1) 0 = pymax l := by
  have hlen := pySorted_length l
  have hlp : 0 < l.length := List.length_pos.mpr h
  have hpos : l.length - 1 < (pySorted l).length := by
    rw [hlen]
    omega
  rw [List.getD_eq_getElem _ _ hpos]
  apply le_antisymm
  · exact le_pymax l _ ((pySorted_perm l).mem_iff.mp (List.getElem_mem hpos))
  · obtain ⟨i, hi⟩ :=
      List.mem_iff_get.mp ((pySorted_perm l).mem_iff.mpr (pymax_mem l h))
    rw [← hi, ← List.get_eq_getElem (pySorted l) ⟨l.length - 1, hpos⟩]
    refine (pySorted_sorted l).rel_get_of_le ?_
    have h2 : i.1 < l.length := by
      rw [← hlen]
      exact i.isLt
    show i.1 ≤ l.length - 1
    omega

theorem percentileBody_eval (ts : List ℚ) (p : ℚ) (f c : ℤ)
    (hf : ⌊((ts.length - 1 : ℕ) : ℚ) * p⌋ = f)
    (hc : ⌈((ts.length - 1 : ℕ) : ℚ) * p⌉ = c) :
    percentileBody ts p =
      if f ≠ c then
        (pySorted ts).getD f.toNat 0 * ((c : ℚ) - ((ts.length - 1 : ℕ) : ℚ) * p) +
          (pySorted ts).getD c.toNat 0 * (((ts.length - 1 : ℕ) : ℚ) * p - (f : ℚ))
      else (pySorted ts).getD f.toNat 0 := by
  simp only [percentileBody]
  rw [hf, hc]

theorem percentileBody_zero (l : List ℚ) (h : l ≠ []) : percentileBody l 0 = pymin l := by
  rw [percentileBody_eval l 0 0 0 (by rw [mul_zero]; exact Int.floor_zero)
    (by rw [mul_zero]; exact Int.ceil_zero)]
  rw [if_neg (by simp)]
  exact pySorted_getD_zero l h

theorem percentileBody_one (l : List ℚ) (h : l ≠ []) : percentileBody l 1 = pymax l := by
  rw [percentileBody_eval l 1 ((l.length - 1 : ℕ) : ℤ) ((l.length - 1 : ℕ) : ℤ)
    (by rw [mul_one]; exact Int.floor_natCast _) (by rw [mul_one]; exact Int.ceil_natCast _)]
  rw [if_neg (by simp)]
  rw [Int.toNat_natCast]
  exact pySorted_getD_last l h

theorem percentileBody_half (l : List ℚ) (h : l ≠ []) :
    percentileBody l (1/2) = statsMedian l := by
  have hpos : 0 < l.length := List.length_pos.mpr h
  rcases Nat.even_or_odd l.length with he | ho
  · obtain ⟨q, hq⟩ := he
    have hq1 : 1 ≤ q := by omega
    have hk : ((l.length - 1 : ℕ) : ℚ) * (1/2) = (q : ℚ) - 1/2 := by
      have h2 : l.length - 1 = 2 * q - 1 := by omega
      rw [h2, Nat.cast_sub (by omega : 1 ≤ 2 * q)]
      push_cast
      ring
    have hf : ⌊((l.length - 1 : ℕ) : ℚ) * (1/2)⌋ = (q : ℤ) - 1 := by
      rw [hk, Int.floor_eq_iff]
      constructor <;> push_cast <;> linarith
    have hc : ⌈((l.length - 1 : ℕ) : ℚ) * (1/2)⌉ = (q : ℤ) := by
      rw [hk, Int.ceil_eq_iff]
      constructor <;> push_cast <;> linarith
    rw [percentileBody_eval l (1/2) _ _ hf hc, if_pos (by omega)]
    have ht1 : ((q : ℤ) - 1).toNat = q - 1 := by omega
    have ht2 : ((q : ℕ) : ℤ).toNat = q := by omega
    rw [ht1, ht2, hk]
    simp only [statsMedian]
    rw [if_neg (by omega)]
    have hd : l.length / 2 = q := by omega
    rw [hd]
    push_cast
    ring
  · obtain ⟨q, hq⟩ := ho
    have hk : ((l.length - 1 : ℕ) : ℚ) * (1/2) = (q : ℚ) := by
      have h2 : l.length - 1 = 2 * q := by omega
      rw [h2]
      push_cast
      ring
    have hf : ⌊((l.length - 1 : ℕ) : ℚ) * (1/2)⌋ = ((q : ℕ) : ℤ) := by
      rw [hk]
      exact Int.floor_natCast _
    have hc : ⌈((l.length - 1 : ℕ) : ℚ) * (1/2)⌉ = ((q : ℕ) : ℤ) := by
      rw [hk]
      exact Int.ceil_natCast _
    rw [percentileBody_eval l (1/2) _ _ hf hc, if_neg (by omega)]
    rw [Int.toNat_natCast]
    simp only [statsMedian]
    rw [if_pos (by omega)]
    have hd : l.length / 2 = q := by omega
    rw [hd]

/-- C8: for a `Stats` instance with nonempty effective times,
`percentile 0` is the minimum, `percentile 1` is the maximum, and
`percentile (1/2)` is the median (including the even-count case, where the
median averages the two middle elements of the sorted effective times). -/
theorem percentile_endpoints_and_median (s : Stats) (h : s.times ≠ []) :
    s.percentile 0 = .ok s.minimum ∧ s.percentile 1 = .ok s.maximum ∧
      s.percentile (1/2) = .ok s.median := by
  have h0 : s.percentile 0 = .ok (percentileBody s.times 0) := by
    unfold Stats.percentile
    rw [if_pos (by norm_num)]
  have h1 : s.percentile 1 = .ok (percentileBody s.times 1) := by
    unfold Stats.percentile
    rw [if_pos (by norm_num)]
  have h2 : s.percentile (1/2) = .ok (percentileBody s.times (1/2)) := by
    unfold Stats.percentile
    rw [if_pos (by norm_num)]
  refine ⟨?_, ?_, ?_⟩
  · rw [h0, percentileBody_zero _ h]
    rfl
  · rw [h1, percentileBody_one _ h]
    rfl
  · rw [h2, percentileBody_half _ h]
    rfl

theorem percentile_endpoints_and_median_witness :
    demoStats4.times ≠ [] ∧
      (demoStats4.percentile 0 = .ok demoStats4.minimum ∧
        demoStats4.percentile 1 = .ok demoStats4.maximum ∧
        demoStats4.percentile (1/2) = .ok demoStats4.median) :=
  ⟨by decide, percentile_endpoints_and_median demoStats4 (by decide)⟩

end Amifast
